import Mathlib

/-!
Shallow embedding of the multi-method OCR extraction and consensus pipeline
of `src/utils/advanced_data_extraction.py`.

The OCR engine (`pytesseract.image_to_string`) and the image decoding and
preprocessing steps (`cv2.imread`, resize, grayscale, threshold) are external
collaborators; they are modelled as an oracle (`OcrEnv`).  Everything
downstream of the recognized text — the regex field parsing of the three
strategies v2/v3/v4, the per-image combiner, and the two consensus engines —
is translated from the Python source.

Python `re` constructs used by the source are embedded explicitly over
`List Char`: `re.findall(r'\d+', ...)` as maximal digit runs,
`re.findall(r'\d{1,3}(?:,\d{3})+', ...)` with its backtracking and
non-overlapping scan behaviour, and `re.search` as first-position match with
the one-character left context needed for word boundaries.  `\w` and `\s` are
embedded at their ASCII fragments (all texts in scope are ASCII apart from a
few fixed class glyphs, none of which is a Python word character).  Python
floats are modelled as rationals: every number produced by the pipeline is an
exact ratio of small integers.
-/

namespace TapTap

/-- Python `\w` (ASCII fragment): letters, digits, underscore. -/
def isWordChar (c : Char) : Bool := c.isAlphanum || c == '_'

/-- Python `\s` (ASCII fragment). -/
def isPySpace (c : Char) : Bool :=
  c == ' ' || c == '\t' || c == '\n' || c == '\r' || c == '\x0b' || c == '\x0c'

/-- Helper for `digitRuns`: `cur` is the current digit run, reversed. -/
def digitRunsGo : List Char → List Char → List String
  | cur, [] => if cur.isEmpty then [] else [String.mk cur.reverse]
  | cur, c :: cs =>
    if c.isDigit then digitRunsGo (c :: cur) cs
    else if cur.isEmpty then digitRunsGo [] cs
    else String.mk cur.reverse :: digitRunsGo [] cs

/-- `re.findall(r'\d+', text)`: the maximal digit runs of the text, in order. -/
def digitRuns (text : String) : List String := digitRunsGo [] text.data

/-- Greedy `(?:,\d{3})*` tail: consumes as many `,ddd` groups as possible.
Returns (number of groups, consumed characters, rest).  Nothing follows the
group in any pattern that uses it, so the greedy parse never backtracks. -/
def commaGroups : List Char → Nat × List Char × List Char
  | c1 :: c2 :: c3 :: c4 :: rest =>
    if c1 == ',' && c2.isDigit && c3.isDigit && c4.isDigit then
      let r := commaGroups rest
      (r.1 + 1, c1 :: c2 :: c3 :: c4 :: r.2.1, r.2.2)
    else (0, [], c1 :: c2 :: c3 :: c4 :: rest)
  | cs => (0, [], cs)

/-- One backtracking alternative of `\d{1,3}(?:,\d{3})+` anchored at the head:
exactly `k` leading digits, then at least one `,ddd` group. -/
def commaTryK (cs : List Char) (k : Nat) : Option (String × List Char) :=
  let ds := cs.take k
  if ds.length = k && ds.all Char.isDigit then
    let r := commaGroups (cs.drop k)
    if r.1 = 0 then none else some (String.mk (ds ++ r.2.1), r.2.2)
  else none

/-- `\d{1,3}(?:,\d{3})+` anchored at the head, with the greedy `\d{1,3}`
backtracking from three digits down to one.  Returns the matched text and the
remaining characters after the match. -/
def commaMatchAt (cs : List Char) : Option (String × List Char) :=
  match commaTryK cs 3 with
  | some r => some r
  | none =>
    match commaTryK cs 2 with
    | some r => some r
    | none => commaTryK cs 1

/-- Scanner for `re.findall(r'\d{1,3}(?:,\d{3})+', text)`: try a match at each
position; on success resume after the match (non-overlapping), on failure
advance one character.  Fuel is the remaining length, which suffices because
every match consumes at least five characters. -/
def commaNumsGo : Nat → List Char → List String
  | 0, _ => []
  | _ + 1, [] => []
  | fuel + 1, c :: cs =>
    match commaMatchAt (c :: cs) with
    | some r => r.1 :: commaNumsGo fuel r.2
    | none => commaNumsGo fuel cs

/-- `re.findall(r'\d{1,3}(?:,\d{3})+', text)`. -/
def commaNums (text : String) : List String := commaNumsGo text.data.length text.data

/-- Greedy `(\d{1,3})` group anchored at the head: up to three leading digits,
at least one. -/
def oneToThreeDigits (cs : List Char) : Option String :=
  let ds := (cs.takeWhile Char.isDigit).take 3
  if ds.isEmpty then none else some (String.mk ds)

/-- `re.search`: try the matcher at every position, left to right; `prev` is
the character before the current position (word-boundary context). -/
def searchAux (m : Option Char → List Char → Option String) :
    Option Char → List Char → Option String
  | prev, [] => m prev []
  | prev, c :: cs =>
    match m prev (c :: cs) with
    | some g => some g
    | none => searchAux m (some c) cs

/-- `re.search(pattern, s)`, returning the first capture group. -/
def reSearch (m : Option Char → List Char → Option String) (s : String) :
    Option String :=
  searchAux m none s.data

/-- Helper for `splitLines`: `cur` is the current line, reversed. -/
def splitLinesGo : List Char → List Char → List String
  | cur, [] => [String.mk cur.reverse]
  | cur, c :: cs =>
    if c = '\n' then String.mk cur.reverse :: splitLinesGo [] cs
    else splitLinesGo (c :: cur) cs

/-- Python `text.split('\n')`. -/
def splitLines (s : String) : List String := splitLinesGo [] s.data

/-- Python `int(...)` on an all-digit string (the only shape it is applied
to: digit runs produced by `re.findall(r'\d+', ...)`). -/
def strNat (s : String) : Nat := s.data.foldl (fun acc c => acc * 10 + (c.toNat - '0'.toNat)) 0

/-- `\b` before a word character: holds when there is no previous character or
it is not a word character. -/
def boundaryBefore : Option Char → Bool
  | none => true
  | some c => !(isWordChar c)

/-- `\b` after a word character: holds at the end of the text or before a
non-word character. -/
def boundaryAfter : List Char → Bool
  | [] => true
  | c :: _ => !(isWordChar c)

/-- `(\d{3})\b` anchored at the head. -/
def matchThreeDigitsBoundary : List Char → Option String
  | a :: b :: c :: rest =>
    if a.isDigit && b.isDigit && c.isDigit && boundaryAfter rest then
      some (String.mk [a, b, c])
    else none
  | _ => none

/-- The character class of v2's people-count pattern `[@#oO§© ]`. -/
def v2PeopleClass (c : Char) : Bool :=
  c == '@' || c == '#' || c == 'o' || c == 'O' || c == '§' || c == '©' || c == ' '

/-- `[@#oO§© ]?(\d{3})\b` anchored at the head: the greedy optional prefix is
tried first, then the empty alternative. -/
def matchPeopleV2 (_prev : Option Char) (cs : List Char) : Option String :=
  match cs with
  | c :: rest =>
    if v2PeopleClass c then
      match matchThreeDigitsBoundary rest with
      | some g => some g
      | none => matchThreeDigitsBoundary (c :: rest)
    else matchThreeDigitsBoundary (c :: rest)
  | [] => none

/-- The character class of v3's people-count pattern `[👥#@§© ]`. -/
def v3PeopleClass (c : Char) : Bool :=
  c == '👥' || c == '#' || c == '@' || c == '§' || c == '©' || c == ' '

/-- `[👥#@§© ](\d{3})\b` anchored at the head (mandatory one-char prefix). -/
def matchPeopleV3 (_prev : Option Char) (cs : List Char) : Option String :=
  match cs with
  | c :: rest => if v3PeopleClass c then matchThreeDigitsBoundary rest else none
  | [] => none

/-- `(\d{3})` anchored at the head (v3's people-count fallback). -/
def matchThreeDigitsAny (_prev : Option Char) (cs : List Char) : Option String :=
  match cs with
  | a :: b :: c :: _ =>
    if a.isDigit && b.isDigit && c.isDigit then some (String.mk [a, b, c]) else none
  | _ => none

/-- `X\s?(\d{1,3})` anchored at the head, where `X` is one character of `cls`;
when `bdry` is true a word boundary is required before `X` (for `\bB`, `\bS`:
those labels are word characters, so `\b` holds exactly when the previous
character is not a word character).  The backtracking alternative of `\s?` is
vacuous: when the character after the label is whitespace, digits cannot start
on it. -/
def matchLabelOptSpaceDigits (cls : Char → Bool) (bdry : Bool)
    (prev : Option Char) (cs : List Char) : Option String :=
  match cs with
  | c :: rest =>
    if cls c && (!bdry || boundaryBefore prev) then
      match rest with
      | d :: rest2 =>
        if isPySpace d then oneToThreeDigits rest2 else oneToThreeDigits (d :: rest2)
      | [] => none
    else none
  | [] => none

/-- `X(\d{1,3})` anchored at the head. -/
def matchCharDigits (cls : Char → Bool) (_prev : Option Char) (cs : List Char) :
    Option String :=
  match cs with
  | c :: rest => if cls c then oneToThreeDigits rest else none
  | [] => none

/-- `X\s*(\d{1,3})` anchored at the head.  The greedy `\s*` never needs to
backtrack: giving back a whitespace character puts a non-digit under the digit
group. -/
def matchCharSpacesDigits (cls : Char → Bool) (_prev : Option Char)
    (cs : List Char) : Option String :=
  match cs with
  | c :: rest => if cls c then oneToThreeDigits (rest.dropWhile isPySpace) else none
  | [] => none

/-- `\b(\d{1,3})\s*X` anchored at the head.  Backtracking analysis: taking
`k` digits with `k` smaller than the full run leaves a digit under `\s*X`,
which fails (no class used here contains a digit), so the group is the entire
run and the run must have at most three digits; a run longer than three
digits can never match (and the pattern cannot start inside a run, because of
the leading `\b`). -/
def matchDigitsSpacesChar (cls : Char → Bool) (prev : Option Char)
    (cs : List Char) : Option String :=
  if boundaryBefore prev then
    let run := cs.takeWhile Char.isDigit
    if run.length == 0 || decide (3 < run.length) then none
    else
      match (cs.drop run.length).dropWhile isPySpace with
      | c :: _ => if cls c then some (String.mk run) else none
      | [] => none
  else none

/-- `\$\s?(\d{1,3}(?:,\d{3})+)` anchored at the head.  As for the other
`\s?` uses, the backtracking alternative is vacuous. -/
def matchDollarV3 (_prev : Option Char) (cs : List Char) : Option String :=
  match cs with
  | '$' :: rest =>
    match rest with
    | d :: rest2 =>
      if isPySpace d then (commaMatchAt rest2).map Prod.fst
      else (commaMatchAt (d :: rest2)).map Prod.fst
    | [] => none
  | _ => none

/-- `(\d{1,3}(?:,\d{3})+)` anchored at the head (v3's dollar fallback). -/
def matchCommaAny (_prev : Option Char) (cs : List Char) : Option String :=
  (commaMatchAt cs).map Prod.fst

/-! ### The data model -/

/-- The five fields of an extraction record (`self.fields` in the source). -/
inductive Field where
  | b_value
  | s_value
  | t_value
  | people_count
  | dollar_amount
deriving DecidableEq, Repr

/-- `self.fields`, in source order. -/
def fieldsList : List Field :=
  [Field.b_value, Field.s_value, Field.t_value, Field.people_count, Field.dollar_amount]

/-- A `mapped_result` dict: five free-form digit strings, `""` = not found. -/
structure Record where
  b_value : String
  s_value : String
  t_value : String
  people_count : String
  dollar_amount : String
deriving DecidableEq, Repr

def getField (r : Record) : Field → String
  | Field.b_value => r.b_value
  | Field.s_value => r.s_value
  | Field.t_value => r.t_value
  | Field.people_count => r.people_count
  | Field.dollar_amount => r.dollar_amount

def emptyRecord : Record :=
  { b_value := "", s_value := "", t_value := "", people_count := "", dollar_amount := "" }

/-! ### Strategy v2: `TapTapDataExtractor.extract_lisa_data_v2` (lines 29-86) -/

/-- `extract_people_count` (lines 48-55): split into lines, return the first
group of `[@#oO§© ]?(\d{3})\b` found searching each line in order, else `''`. -/
def extractPeopleCountV2 (text : String) : String :=
  ((splitLines text).findSome? (fun line => reSearch matchPeopleV2 line)).getD ""

/-- The `(b_val, s_val, t_val)` block of `extract_lisa_data_v2`
(lines 61-73): nothing is assigned when there are fewer than three digit
runs; when a run of exactly three digits exists, its index is the pivot and
the neighbours at pivot−2, pivot−1 and pivot+1 are taken under their range
guards; when no such run exists (`StopIteration`), the first three runs are
taken. -/
def v2BST (all_numbers : List String) : String × String × String :=
  if 3 ≤ all_numbers.length then
    match all_numbers.findIdx? (fun v => v.length == 3) with
    | some p =>
      (if 2 ≤ p then all_numbers.getD (p - 2) "" else "",
       if 1 ≤ p then all_numbers.getD (p - 1) "" else "",
       if p + 1 < all_numbers.length then all_numbers.getD (p + 1) "" else "")
    | none =>
      (all_numbers.getD 0 "",
       if 1 < all_numbers.length then all_numbers.getD 1 "" else "",
       if 2 < all_numbers.length then all_numbers.getD 2 "" else "")
  else ("", "", "")

/-- The `mapped` dict of `extract_lisa_data_v2` (lines 42-81), as a function of
the recognized text. -/
def v2MappedResult (text : String) : Record :=
  { b_value := (v2BST (digitRuns text)).1,
    s_value := (v2BST (digitRuns text)).2.1,
    t_value := (v2BST (digitRuns text)).2.2,
    people_count := extractPeopleCountV2 text,
    dollar_amount := (commaNums text).headD "" }

/-! ### Strategy v3: `TapTapDataExtractor.extract_game_stat_v3` (lines 88-131) -/

def clsB (c : Char) : Bool := c == 'B'

def clsS (c : Char) : Bool := c == 'S'

/-- The class `[○@*oO)§©]` of v3's labelled t-value pattern. -/
def v3TCls (c : Char) : Bool :=
  c == '○' || c == '@' || c == '*' || c == 'o' || c == 'O' || c == ')' ||
    c == '§' || c == '©'

/-- The class `[T@]` of v3's fallback t-value pattern. -/
def v3TFallbackCls (c : Char) : Bool := c == 'T' || c == '@'

/-- The `mapped` dict of `extract_game_stat_v3` (lines 101-126), as a function
of the (already stripped) recognized text.  Each labelled pattern is tried
first; its plain fallback is consulted only when it has no match. -/
def v3MappedResult (text : String) : Record :=
  let bm :=
    match reSearch (matchLabelOptSpaceDigits clsB true) text with
    | some g => some g
    | none => reSearch (matchCharDigits clsB) text
  let sm :=
    match reSearch (matchLabelOptSpaceDigits clsS true) text with
    | some g => some g
    | none => reSearch (matchCharDigits clsS) text
  let tm :=
    match reSearch (matchLabelOptSpaceDigits v3TCls false) text with
    | some g => some g
    | none => reSearch (matchCharDigits v3TFallbackCls) text
  let pm :=
    match reSearch matchPeopleV3 text with
    | some g => some g
    | none => reSearch matchThreeDigitsAny text
  let dm :=
    match reSearch matchDollarV3 text with
    | some g => some g
    | none => reSearch matchCommaAny text
  { b_value := bm.getD "", s_value := sm.getD "", t_value := tm.getD "",
    people_count := pm.getD "", dollar_amount := dm.getD "" }

/-! ### Strategy v4: `TapTapDataExtractor.extract_stat_v4` (lines 133-217) -/

/-- The class `[T@§©]` of v4's t-value patterns. -/
def v4TCls (c : Char) : Bool := c == 'T' || c == '@' || c == '§' || c == '©'

/-- v4's `b_patterns`, in source order:
`[r'B(\d{1,3})', r'\b(\d{1,3})\s*B', r'B\s*(\d{1,3})']`. -/
def v4BPatterns : List (Option Char → List Char → Option String) :=
  [matchCharDigits clsB, matchDigitsSpacesChar clsB, matchCharSpacesDigits clsB]

/-- v4's `s_patterns`, in source order. -/
def v4SPatterns : List (Option Char → List Char → Option String) :=
  [matchCharDigits clsS, matchDigitsSpacesChar clsS, matchCharSpacesDigits clsS]

/-- v4's `t_patterns`, in source order:
`[r'[T@§©](\d{1,3})', r'\b(\d{1,3})\s*[T@§©]', r'[T@§©]\s*(\d{1,3})']`. -/
def v4TPatterns : List (Option Char → List Char → Option String) :=
  [matchCharDigits v4TCls, matchDigitsSpacesChar v4TCls, matchCharSpacesDigits v4TCls]

/-- v4's line scan (lines 166-190): the value is set by the first matching
(line, pattern) pair, lines outermost, patterns in list order within a line;
once set it is never overwritten by the scan. -/
def v4LineScan (pats : List (Option Char → List Char → Option String))
    (text : String) : String :=
  ((splitLines text).findSome?
    (fun line => pats.findSome? (fun m => reSearch m line))).getD ""

/-- v4's people count (lines 151-155): the first digit run of length three
whose value lies in `[100, 999]`, else `''`. -/
def v4PeopleCount (all_numbers : List String) : String :=
  (all_numbers.find?
    (fun num => num.length == 3 && decide (100 ≤ strNat num) && decide (strNat num ≤ 999))).getD ""

/-- The final `(b_value, s_value, t_value)` of `extract_stat_v4`, i.e. the
line-scan results `lb, ls, lt` after the positional fallback (lines 192-204):
the fallback runs only when `b_value` is still empty after the line scan and
there are at least three digit runs; when the people-count pivot is found it
assigns `b_value` (pivot at least two) and overwrites `s_value` (pivot at
least one) and `t_value` (pivot successor in range), keeping the line-scan
value only where its guard fails; when no digit run equals the people count
(`StopIteration`, in particular whenever `people_count` is empty), the
line-scan values are kept. -/
def v4BST (lb ls lt : String) (all_numbers : List String) (people_count : String) :
    String × String × String :=
  if lb = "" ∧ 3 ≤ all_numbers.length then
    match all_numbers.findIdx? (fun v => v == people_count) with
    | some p =>
      (if 2 ≤ p then all_numbers.getD (p - 2) "" else lb,
       if 1 ≤ p then all_numbers.getD (p - 1) "" else ls,
       if p + 1 < all_numbers.length then all_numbers.getD (p + 1) "" else lt)
    | none => (lb, ls, lt)
  else (lb, ls, lt)

/-- The `mapped` dict of `extract_stat_v4` (lines 146-212), as a function of
the (already stripped) recognized text. -/
def v4MappedResult (text : String) : Record :=
  { b_value := (v4BST (v4LineScan v4BPatterns text) (v4LineScan v4SPatterns text)
      (v4LineScan v4TPatterns text) (digitRuns text)
      (v4PeopleCount (digitRuns text))).1,
    s_value := (v4BST (v4LineScan v4BPatterns text) (v4LineScan v4SPatterns text)
      (v4LineScan v4TPatterns text) (digitRuns text)
      (v4PeopleCount (digitRuns text))).2.1,
    t_value := (v4BST (v4LineScan v4BPatterns text) (v4LineScan v4SPatterns text)
      (v4LineScan v4TPatterns text) (digitRuns text)
      (v4PeopleCount (digitRuns text))).2.2,
    people_count := v4PeopleCount (digitRuns text),
    dollar_amount := (commaNums text).headD "" }

/-! ### The strategies as single-image calls, with the collaborators as oracles

`cv2.imread` returning `None` is `imageReadable = false`; an exception raised
by `pytesseract.image_to_string` is `ocrText = Except.error ()`.  A strategy
call either returns a Python dict — the error-marker dict `{"error": ...}` or
the `{"raw_text", "mapped_result"}` dict, modelled by `StratOutput` — or lets
an exception escape, modelled by `Except.error`. -/

/-- The external decode/OCR collaborators for one image. -/
structure OcrEnv where
  imageReadable : Bool
  ocrText : Except Unit String

/-- The dict returned by one strategy call. -/
inductive StratOutput where
  | errorDict (msg : String)
  | result (raw_text : String) (mapped_result : Record)
deriving DecidableEq

/-- The exceptions the embedded fragment can raise. -/
inductive PyErr where
  | ocrFail
  | keyError (k : String)
deriving DecidableEq

/-- `extract_lisa_data_v2` (lines 29-86): error-marker dict when the image
cannot be read; otherwise the OCR call runs with no exception handler around
it, so an OCR exception escapes the strategy call.  The returned `raw_text` is
stripped, but the parse runs on the unstripped text. -/
def extract_lisa_data_v2 (env : OcrEnv) : Except PyErr StratOutput :=
  if env.imageReadable = false then Except.ok (StratOutput.errorDict "Cannot read image")
  else
    match env.ocrText with
    | Except.error _ => Except.error PyErr.ocrFail
    | Except.ok text => Except.ok (StratOutput.result text.trim (v2MappedResult text))

/-- `extract_game_stat_v3` (lines 88-131): as v2, but the text is stripped
before parsing. -/
def extract_game_stat_v3 (env : OcrEnv) : Except PyErr StratOutput :=
  if env.imageReadable = false then Except.ok (StratOutput.errorDict "Cannot read image")
  else
    match env.ocrText with
    | Except.error _ => Except.error PyErr.ocrFail
    | Except.ok text => Except.ok (StratOutput.result text.trim (v3MappedResult text.trim))

/-- `extract_stat_v4` (lines 133-217): as v3. -/
def extract_stat_v4 (env : OcrEnv) : Except PyErr StratOutput :=
  if env.imageReadable = false then Except.ok (StratOutput.errorDict "Cannot read image")
  else
    match env.ocrText with
    | Except.error _ => Except.error PyErr.ocrFail
    | Except.ok text => Except.ok (StratOutput.result text.trim (v4MappedResult text.trim))

/-! ### The combiner: `extract_stat_combined` (lines 219-243) -/

/-- The dict access `result["mapped_result"]`: on the error-marker dict, which
has only the key `"error"`, this raises `KeyError`. -/
def getMappedResult : StratOutput → Except PyErr Record
  | StratOutput.errorDict _ => Except.error (PyErr.keyError "mapped_result")
  | StratOutput.result _ m => Except.ok m

/-- One per-field step of the merge loop (line 232):
`val_v4 if val_v4 else (val_v3 if val_v3 else val_v2)`. -/
def combineField (v2v v3v v4v : String) : String :=
  if v4v ≠ "" then v4v else if v3v ≠ "" then v3v else v2v

/-- The `merged` dict: the merge loop applied to each of `self.fields`. -/
def combineMapped (r2 r3 r4 : Record) : Record :=
  { b_value := combineField r2.b_value r3.b_value r4.b_value,
    s_value := combineField r2.s_value r3.s_value r4.s_value,
    t_value := combineField r2.t_value r3.t_value r4.t_value,
    people_count := combineField r2.people_count r3.people_count r4.people_count,
    dollar_amount := combineField r2.dollar_amount r3.dollar_amount r4.dollar_amount }

/-- The dict returned by `extract_stat_combined` (the filename and raw-text
entries are omitted; they carry no logic). -/
structure CombinedOutput where
  final_result : Record
  v2_result : Record
  v3_result : Record
  v4_result : Record
deriving DecidableEq

/-- `extract_stat_combined` (lines 219-243): runs the three strategies, then
merges per field; the merge loop reads `result_v4["mapped_result"]` first
(line 228), then v3, then v2, so on error-marker results the v4 access raises
`KeyError` first. -/
def extract_stat_combined (env : OcrEnv) : Except PyErr CombinedOutput := do
  let r2 ← extract_lisa_data_v2 env
  let r3 ← extract_game_stat_v3 env
  let r4 ← extract_stat_v4 env
  let m4 ← getMappedResult r4
  let m3 ← getMappedResult r3
  let m2 ← getMappedResult r2
  pure { final_result := combineMapped m2 m3 m4,
         v2_result := m2, v3_result := m3, v4_result := m4 }

/-! ### Frequency consensus: `Counter(...).most_common(1)[0]`

`collections.Counter` iterates its keys in first-insertion order, and
`most_common` sorts stably by descending count, so `most_common(1)[0]` is the
value of maximal count whose first occurrence in the observation list is
earliest. -/

/-- Occurrences of `v` in `l`. -/
def countOcc (l : List String) (v : String) : Nat :=
  (l.filter (fun w => decide (w = v))).length

/-- The distinct values of `l` in first-occurrence order (the key order of
`Counter(l)`). -/
def firstKeys : List String → List String
  | [] => []
  | v :: vs => v :: (firstKeys vs).filter (fun w => decide (w ≠ v))

/-- Keep the first strictly-greater count while scanning the keys (the
stable descending sort of `most_common` keeps the earliest-inserted key among
equal counts first). -/
def bestOf (l : List String) : String × Nat → List String → String × Nat
  | b, [] => b
  | b, w :: ws =>
    if b.2 < countOcc l w then bestOf l (w, countOcc l w) ws else bestOf l b ws

/-- `Counter(l).most_common(1)[0]` as an option (`none` exactly on `[]`). -/
def mostCommon (l : List String) : Option (String × Nat) :=
  match firstKeys l with
  | [] => none
  | k :: ks => some (bestOf l (k, countOcc l k) ks)

/-- The first index of `v` in `l` (its first-encountered position). -/
def firstIdx (l : List String) (v : String) : Nat :=
  l.findIdx (fun w => decide (w = v))

/-! ### The full consensus engine: `ConsensusAnalyzer._find_consensus`
(lines 359-419) -/

/-- One of the three extraction strategies. -/
inductive Method where
  | v2
  | v3
  | v4
deriving DecidableEq, Repr

def Method.name : Method → String
  | Method.v2 => "v2"
  | Method.v3 => "v3"
  | Method.v4 => "v4"

/-- One entry of `all_results`: the three per-strategy mapped results of a
single image (the filename and raw-text entries carry no consensus logic). -/
structure ResultEntry where
  v2 : Record
  v3 : Record
  v4 : Record
deriving DecidableEq

def projMethod (m : Method) (r : ResultEntry) : Record :=
  match m with
  | Method.v2 => r.v2
  | Method.v3 => r.v3
  | Method.v4 => r.v4

/-- `field_values[field][method]` (lines 366-373): the non-empty observations
of `f` contributed by strategy `m`, in image order. -/
def methodFieldValues (rs : List ResultEntry) (m : Method) (f : Field) :
    List String :=
  rs.filterMap (fun r =>
    let v := getField (projMethod m r) f
    if v = "" then none else some v)

/-- `all_values` (lines 377-379): the pooled non-empty observations of `f`,
v2's in image order, then v3's, then v4's. -/
def pooledValues (rs : List ResultEntry) (f : Field) : List String :=
  methodFieldValues rs Method.v2 f ++ methodFieldValues rs Method.v3 f ++
    methodFieldValues rs Method.v4 f

/-- The per-field consensus data:
`consensus[field]`, `consensus[f'{field}_confidence']`,
`consensus[f'{field}_count']`, `consensus[f'{field}_total']`. -/
structure FieldConsensus where
  value : String
  confidence : ℚ
  support_count : Nat
  total_observations : Nat
deriving DecidableEq, Repr

/-- Lines 381-396 (and, identically, lines 690-706 of the optimized engine):
plurality value with `confidence = (count / total_count) * 100` when there are
observations, else the empty/zero record. -/
def fieldConsensusOfValues (values : List String) : FieldConsensus :=
  match mostCommon values with
  | some vc =>
    { value := vc.1,
      confidence := ((vc.2 : ℚ) / (values.length : ℚ)) * 100,
      support_count := vc.2,
      total_observations := values.length }
  | none =>
    { value := "", confidence := 0, support_count := 0, total_observations := 0 }

/-- `method_score` (lines 401-405): total non-empty observations contributed
by `m` across all fields. -/
def methodScore (rs : List ResultEntry) (m : Method) : Nat :=
  (fieldsList.map (fun f => (methodFieldValues rs m f).length)).sum

/-- `method_total` (lines 402-406): fields to which `m` contributed at least
one observation. -/
def methodTouched (rs : List ResultEntry) (m : Method) : Nat :=
  (fieldsList.filter (fun f => !(methodFieldValues rs m f).isEmpty)).length

/-- `method_scores[method]` (lines 408-411). -/
def methodRatio (rs : List ResultEntry) (m : Method) : ℚ :=
  if 0 < methodTouched rs m then (methodScore rs m : ℚ) / (methodTouched rs m : ℚ)
  else 0

/-- `max(method_scores, key=method_scores.get)` (line 413): the dict iterates
`v2, v3, v4` in insertion order and `max` keeps the first maximum. -/
def bestMethod (rs : List ResultEntry) : Method :=
  let b1 :=
    if methodRatio rs Method.v2 < methodRatio rs Method.v3 then Method.v3 else Method.v2
  if methodRatio rs b1 < methodRatio rs Method.v4 then Method.v4 else b1

/-- `consensus['confidence']` (line 414): the mean of the five per-field
confidences. -/
def overallConfidence (fr : Field → FieldConsensus) : ℚ :=
  ((fieldsList.map (fun f => (fr f).confidence)).sum) / (fieldsList.length : ℚ)

/-- The consensus dict of `_find_consensus`. -/
structure ConsensusOutput where
  fieldRes : Field → FieldConsensus
  best_method : String
  confidence : ℚ

/-- `_find_consensus` (lines 359-419). -/
def find_consensus (rs : List ResultEntry) : ConsensusOutput :=
  { fieldRes := fun f => fieldConsensusOfValues (pooledValues rs f),
    best_method := (bestMethod rs).name,
    confidence := overallConfidence (fun f => fieldConsensusOfValues (pooledValues rs f)) }

/-! ### The optimized consensus engine: `OptimizedConsensusAnalyzer`
(lines 523-751) -/

/-- One candidate image of the pool: its filename (which encodes the
preprocessing variant) and the three per-strategy mapped results its
extraction produces. -/
structure ImageObs where
  filename : String
  v2 : Record
  v3 : Record
  v4 : Record
deriving DecidableEq

/-- The non-empty observations of `f` contributed by one image, in strategy
order v2, v3, v4 (lines 642-647). -/
def imageFieldObs (img : ImageObs) (f : Field) : List String :=
  ([img.v2, img.v3, img.v4].map (fun r => getField r f)).filter
    (fun v => decide (v ≠ ""))

/-- Appending one image's observations to the running `field_values`. -/
def accumValues (fv : Field → List String) (img : ImageObs) : Field → List String :=
  fun f => fv f ++ imageFieldObs img f

/-- The per-field confidence used by `_calculate_current_confidence`
(lines 673-680): plurality share when there are observations, else `0`. -/
def fieldConfidence (values : List String) : ℚ :=
  match mostCommon values with
  | some vc => ((vc.2 : ℚ) / (values.length : ℚ)) * 100
  | none => 0

/-- `_calculate_current_confidence` (lines 665-682).  The source's early
`if not field_values: return 0.0` branch (an empty dict of accumulated
values) returns the same value as the general formula, whose numerator is
then an empty sum. -/
def currentConfidence (fv : Field → List String) : ℚ :=
  ((fieldsList.map (fun f => fieldConfidence (fv f))).sum) / (fieldsList.length : ℚ)

/-- The loop of `_process_images_with_early_termination` (lines 630-657):
accumulate one image, increment `images_processed`, then break when the
running confidence reaches the threshold.  Returns the final `field_values`
and `images_processed`. -/
def processImagesLoop (th : ℚ) :
    List ImageObs → (Field → List String) → Nat → ((Field → List String) × Nat)
  | [], fv, n => (fv, n)
  | img :: rest, fv, n =>
    let fv2 := accumValues fv img
    if th ≤ currentConfidence fv2 then (fv2, n + 1)
    else processImagesLoop th rest fv2 (n + 1)

/-- The per-iteration values of `images_processed` of the same loop: the
states the loop variable reaches, in order. -/
def processCounts (th : ℚ) :
    List ImageObs → (Field → List String) → Nat → List Nat
  | [], _, _ => []
  | img :: rest, fv, n =>
    let fv2 := accumValues fv img
    if th ≤ currentConfidence fv2 then [n + 1]
    else (n + 1) :: processCounts th rest fv2 (n + 1)

/-- The consensus dict of the optimized engine, with `images_processed`. -/
structure OptConsensusOutput where
  fieldRes : Field → FieldConsensus
  best_method : String
  confidence : ℚ
  images_processed : Nat

/-- `_calculate_consensus_from_values` (lines 684-713) applied per field. -/
def calcConsensusFields (fv : Field → List String) : Field → FieldConsensus :=
  fun f => fieldConsensusOfValues (fv f)

/-- `_process_images_with_early_termination` (lines 623-663): run the loop,
then `_calculate_consensus_from_values` — whose `best_method` is the constant
`'v3'` (line 709) — and record `images_processed`. -/
def process_images_with_early_termination (imgs : List ImageObs) (th : ℚ) :
    OptConsensusOutput :=
  let r := processImagesLoop th imgs (fun _ => []) 0
  { fieldRes := calcConsensusFields r.1,
    best_method := "v3",
    confidence := overallConfidence (calcConsensusFields r.1),
    images_processed := r.2 }

/-- Python `pat in s` (substring test). -/
def listStartsWith : List Char → List Char → Bool
  | _, [] => true
  | [], _ :: _ => false
  | c :: cs, p :: ps => c == p && listStartsWith cs ps

def listContainsSub : List Char → List Char → Bool
  | [], pat => pat.isEmpty
  | c :: cs, pat => listStartsWith (c :: cs) pat || listContainsSub cs pat

def strContains (hay pat : String) : Bool := listContainsSub hay.data pat.data

/-- `get_priority` (lines 613-618) over the uncommented entries of
`self.method_priority` (lines 531-551), probed in dict insertion order;
unknown variants get `999`. -/
def get_priority (filename : String) : Nat :=
  if strContains filename "adaptive_binarized" then 5
  else if strContains filename "gaussian_blur" then 17
  else if strContains filename "processed_17" then 19
  else 999

/-- Stable insertion for the stable sort `sorted(image_files, key=get_priority)`. -/
def insertByPriority (img : ImageObs) : List ImageObs → List ImageObs
  | [] => [img]
  | b :: bs =>
    if get_priority b.filename ≤ get_priority img.filename then
      b :: insertByPriority img bs
    else img :: b :: bs

/-- `_prioritize_images_by_method` (lines 608-621): stable sort by priority. -/
def prioritizeImages (pool : List ImageObs) : List ImageObs :=
  pool.foldl (fun acc img => insertByPriority img acc) []

/-- `prioritized_files[:sample_size]` (line 590). -/
def selectedImages (pool : List ImageObs) (sample_size : Nat) : List ImageObs :=
  (prioritizeImages pool).take sample_size

/-- The per-region body of `analyze_debug_images_consensus_optimized`
(lines 586-598): prioritize, take the top `sample_size`, process with early
termination. -/
def analyze_optimized (pool : List ImageObs) (sample_size : Nat) (th : ℚ) :
    OptConsensusOutput :=
  process_images_with_early_termination (selectedImages pool sample_size) th

/-! ### Specification-level predicates and demonstration inputs -/

/-- The spec's characterization of per-field frequency consensus: the value
is an observed one of maximal frequency, earliest-first on ties, with
`confidence = support_count / total_observations × 100` (spec §4.4 / P3). -/
def IsPluralityConsensus (obs : List String) (fc : FieldConsensus) : Prop :=
  fc.value ∈ obs ∧
  fc.support_count = countOcc obs fc.value ∧
  fc.total_observations = obs.length ∧
  (∀ w ∈ obs, countOcc obs w ≤ fc.support_count) ∧
  (∀ w ∈ obs, countOcc obs w = fc.support_count →
    firstIdx obs fc.value ≤ firstIdx obs w) ∧
  fc.confidence = (fc.support_count : ℚ) / (fc.total_observations : ℚ) * 100

/-- A record observed as `"100"` for `b_value` only. -/
def rec100 : Record := { emptyRecord with b_value := "100" }

/-- A record observed as `"200"` for `b_value` only. -/
def rec200 : Record := { emptyRecord with b_value := "200" }

/-- Three per-image extraction records whose pooled `b_value` observations
are `["100", "100", "200"]` (the instance of P3). -/
def demoP3 : List ResultEntry :=
  [⟨rec100, emptyRecord, emptyRecord⟩, ⟨rec100, emptyRecord, emptyRecord⟩,
    ⟨rec200, emptyRecord, emptyRecord⟩]

/-- A record with all five fields non-empty. -/
def recFull : Record :=
  { b_value := "1", s_value := "2", t_value := "3", people_count := "444",
    dollar_amount := "1,234" }

/-- One image whose observations all come from strategy v2. -/
def imgOnlyV2 : ImageObs := ⟨"img", recFull, emptyRecord, emptyRecord⟩

/-- The per-strategy observations of `imgOnlyV2` as a consensus collection. -/
def obsOnlyV2 : List ResultEntry := [⟨imgOnlyV2.v2, imgOnlyV2.v3, imgOnlyV2.v4⟩]

/-- One image none of whose strategies found any field. -/
def imgEmpty : ImageObs := ⟨"img", emptyRecord, emptyRecord, emptyRecord⟩

/-- Five such images: the running confidence stays at 0% after every image,
below any positive threshold, so the optimized loop never terminates early. -/
def poolEmpty : List ImageObs := [imgEmpty, imgEmpty, imgEmpty, imgEmpty, imgEmpty]

/-- A combiner demonstration environment: a readable image whose OCR text is
parsed by all three strategies. -/
def demoEnv : OcrEnv := { imageReadable := true, ocrText := Except.ok "B12S34T56 123 1,234" }

/-- The combined output on `demoEnv`. -/
def demoOut : CombinedOutput :=
  match extract_stat_combined demoEnv with
  | Except.ok o => o
  | Except.error _ => ⟨emptyRecord, emptyRecord, emptyRecord, emptyRecord⟩

/-! ### Lemmas on `Counter(...).most_common(1)[0]` -/

lemma firstIdx_cons_self (l : List String) (v : String) : firstIdx (v :: l) v = 0 := by
  simp [firstIdx, List.findIdx_cons]

lemma firstIdx_cons_ne (l : List String) {v a : String} (h : v ≠ a) :
    firstIdx (a :: l) v = firstIdx l v + 1 := by
  simp [firstIdx, List.findIdx_cons, Ne.symm h]

lemma mem_firstKeys {l : List String} {v : String} : v ∈ firstKeys l ↔ v ∈ l := by
  induction l with
  | nil => simp [firstKeys]
  | cons a t ih =>
    by_cases hva : v = a
    · subst hva; simp [firstKeys]
    · simp [firstKeys, List.mem_filter, hva, ih]

lemma firstKeys_pairwise :
    ∀ l : List String, (firstKeys l).Pairwise (fun a b => firstIdx l a < firstIdx l b)
  | [] => by simp [firstKeys]
  | a :: t => by
    rw [firstKeys]
    refine List.Pairwise.cons ?_ ?_
    · intro b hb
      have hba : b ≠ a := by
        simpa using (List.mem_filter.mp hb).2
      rw [firstIdx_cons_self, firstIdx_cons_ne _ hba]
      omega
    · have ih := firstKeys_pairwise t
      have h1 := ih.filter (fun w => decide (w ≠ a))
      refine h1.imp_of_mem ?_
      intro x y hx hy hxy
      have hxa : x ≠ a := by simpa using (List.mem_filter.mp hx).2
      have hya : y ≠ a := by simpa using (List.mem_filter.mp hy).2
      rw [firstIdx_cons_ne _ hxa, firstIdx_cons_ne _ hya]
      omega

lemma bestOf_spec (l : List String) :
    ∀ (ks : List String) (bv : String),
      (bestOf l (bv, countOcc l bv) ks).2
          = countOcc l (bestOf l (bv, countOcc l bv) ks).1 ∧
      countOcc l bv ≤ (bestOf l (bv, countOcc l bv) ks).2 ∧
      (∀ w ∈ ks, countOcc l w ≤ (bestOf l (bv, countOcc l bv) ks).2) ∧
      ((bestOf l (bv, countOcc l bv) ks).1 = bv ∨
        ∃ ks1 ks2, ks = ks1 ++ (bestOf l (bv, countOcc l bv) ks).1 :: ks2 ∧
          countOcc l bv < (bestOf l (bv, countOcc l bv) ks).2 ∧
          ∀ w ∈ ks1, countOcc l w < (bestOf l (bv, countOcc l bv) ks).2)
  | [], bv => by
    refine ⟨rfl, le_refl _, ?_, Or.inl rfl⟩
    intro w hw
    exact absurd hw (List.not_mem_nil w)
  | w :: ws, bv => by
    by_cases h : countOcc l bv < countOcc l w
    · have hb : bestOf l (bv, countOcc l bv) (w :: ws) = bestOf l (w, countOcc l w) ws := by
        rw [bestOf, if_pos h]
      obtain ⟨ih1, ih2, ih3, ih4⟩ := bestOf_spec l ws w
      rw [hb]
      refine ⟨ih1, le_of_lt (lt_of_lt_of_le h ih2), ?_, ?_⟩
      · intro x hx
        rcases List.mem_cons.mp hx with hx | hx
        · subst hx; exact ih2
        · exact ih3 x hx
      · rcases ih4 with heq | ⟨ks1, ks2, hdec, hlt, hks1⟩
        · refine Or.inr ⟨[], ws, ?_, ?_, ?_⟩
          · simp [heq]
          · exact lt_of_lt_of_le h ih2
          · intro x hx; exact absurd hx (List.not_mem_nil x)
        · refine Or.inr ⟨w :: ks1, ks2, ?_, ?_, ?_⟩
          · rw [List.cons_append]; exact congrArg (List.cons w) hdec
          · exact lt_trans h hlt
          · intro x hx
            rcases List.mem_cons.mp hx with hx | hx
            · subst hx; exact hlt
            · exact hks1 x hx
    · have hb : bestOf l (bv, countOcc l bv) (w :: ws) = bestOf l (bv, countOcc l bv) ws := by
        rw [bestOf, if_neg h]
      obtain ⟨ih1, ih2, ih3, ih4⟩ := bestOf_spec l ws bv
      rw [hb]
      refine ⟨ih1, ih2, ?_, ?_⟩
      · intro x hx
        rcases List.mem_cons.mp hx with hx | hx
        · subst hx; exact le_trans (not_lt.mp h) ih2
        · exact ih3 x hx
      · rcases ih4 with heq | ⟨ks1, ks2, hdec, hlt, hks1⟩
        · exact Or.inl heq
        · refine Or.inr ⟨w :: ks1, ks2, ?_, hlt, ?_⟩
          · rw [List.cons_append]; exact congrArg (List.cons w) hdec
          · intro x hx
            rcases List.mem_cons.mp hx with hx | hx
            · subst hx; exact lt_of_le_of_lt (not_lt.mp h) hlt
            · exact hks1 x hx

lemma mostCommon_isSome {l : List String} (h : l ≠ []) :
    ∃ p, mostCommon l = some p := by
  cases l with
  | nil => exact absurd rfl h
  | cons a t => exact ⟨_, rfl⟩

lemma mostCommon_spec {l : List String} {v : String} {c : Nat}
    (h : mostCommon l = some (v, c)) :
    v ∈ l ∧ c = countOcc l v ∧ (∀ w ∈ l, countOcc l w ≤ c) ∧
      (∀ w ∈ l, countOcc l w = c → firstIdx l v ≤ firstIdx l w) := by
  cases hfk : firstKeys l with
  | nil =>
    rw [mostCommon, hfk] at h
    exact absurd h (by simp)
  | cons k ks =>
    rw [mostCommon, hfk] at h
    have hvc : bestOf l (k, countOcc l k) ks = (v, c) := Option.some.inj h
    obtain ⟨h1, h2, h3, h4⟩ := bestOf_spec l ks k
    rw [hvc] at h1 h2 h3 h4
    -- decomposition of the key list with a strictly-smaller-count prefix
    have hdec : ∃ ksa ksb, firstKeys l = ksa ++ v :: ksb ∧
        ∀ w ∈ ksa, countOcc l w < c := by
      rcases h4 with heq | ⟨ks1, ks2, hd, hlt, hks1⟩
      · have hvk : v = k := heq
        exact ⟨[], ks, by rw [hfk, hvk, List.nil_append],
          fun w hw => absurd hw (List.not_mem_nil w)⟩
      · have hd2 : ks = ks1 ++ v :: ks2 := hd
        refine ⟨k :: ks1, ks2, by rw [hfk, hd2, List.cons_append], ?_⟩
        intro w hw
        rcases List.mem_cons.mp hw with hw | hw
        · subst hw; exact hlt
        · exact hks1 w hw
    obtain ⟨ksa, ksb, hksab, hsmall⟩ := hdec
    have hvmem : v ∈ firstKeys l := by
      rw [hksab]; exact List.mem_append.mpr (Or.inr (List.mem_cons_self v ksb))
    have hmax : ∀ w ∈ l, countOcc l w ≤ c := by
      intro w hw
      have hw2 : w ∈ firstKeys l := mem_firstKeys.mpr hw
      rw [hfk] at hw2
      rcases List.mem_cons.mp hw2 with hw2 | hw2
      · subst hw2; exact h2
      · exact h3 w hw2
    refine ⟨mem_firstKeys.mp hvmem, h1, hmax, ?_⟩
    intro w hw hwc
    have hw2 : w ∈ firstKeys l := mem_firstKeys.mpr hw
    rw [hksab] at hw2
    have hp := firstKeys_pairwise l
    rw [hksab] at hp
    obtain ⟨-, hp2, -⟩ := List.pairwise_append.mp hp
    rcases List.mem_append.mp hw2 with hw2 | hw2
    · exact absurd hwc (Nat.ne_of_lt (hsmall w hw2))
    · rcases List.mem_cons.mp hw2 with hw2 | hw2
      · subst hw2; exact le_refl _
      · exact le_of_lt ((List.pairwise_cons.mp hp2).1 w hw2)

/-! ### Lemmas on the optimized processing loop -/

lemma processCounts_le (th : ℚ) :
    ∀ (imgs : List ImageObs) (fv : Field → List String) (n k : Nat),
      k ∈ processCounts th imgs fv n → k ≤ n + imgs.length
  | [], _, n, k => by
    intro hk
    exact absurd hk (List.not_mem_nil k)
  | img :: rest, fv, n, k => by
    rw [processCounts]
    by_cases h : th ≤ currentConfidence (accumValues fv img)
    · rw [if_pos h]
      intro hk
      have : k = n + 1 := List.mem_singleton.mp hk
      simp [this, List.length_cons]
    · rw [if_neg h]
      intro hk
      rcases List.mem_cons.mp hk with hk | hk
      · simp [hk, List.length_cons]
      · have := processCounts_le th rest (accumValues fv img) (n + 1) k hk
        simp only [List.length_cons]
        omega

lemma processImagesLoop_count_le (th : ℚ) :
    ∀ (imgs : List ImageObs) (fv : Field → List String) (n : Nat),
      (processImagesLoop th imgs fv n).2 ≤ n + imgs.length
  | [], _, n => by simp [processImagesLoop]
  | img :: rest, fv, n => by
    rw [processImagesLoop]
    by_cases h : th ≤ currentConfidence (accumValues fv img)
    · rw [if_pos h]
      simp [List.length_cons]
    · rw [if_neg h]
      have := processImagesLoop_count_le th rest (accumValues fv img) (n + 1)
      simp only [List.length_cons]
      omega

lemma processImagesLoop_no_break (th : ℚ) :
    ∀ (imgs : List ImageObs) (fv : Field → List String) (n : Nat),
      (∀ k, k < imgs.length →
        currentConfidence ((imgs.take (k + 1)).foldl accumValues fv) < th) →
      processImagesLoop th imgs fv n = (imgs.foldl accumValues fv, n + imgs.length)
  | [], fv, n, _ => by simp [processImagesLoop]
  | img :: rest, fv, n, H => by
    have h0 := H 0 (by simp [List.length_cons])
    have h0' : currentConfidence (accumValues fv img) < th := by
      simpa using h0
    rw [processImagesLoop, if_neg (not_le.mpr h0')]
    have Hrest : ∀ k, k < rest.length →
        currentConfidence ((rest.take (k + 1)).foldl accumValues (accumValues fv img)) < th := by
      intro k hk
      have := H (k + 1) (by simp [List.length_cons]; omega)
      simpa [List.take_succ_cons] using this
    rw [processImagesLoop_no_break th rest (accumValues fv img) (n + 1) Hrest]
    refine congrArg (Prod.mk _) ?_
    simp only [List.length_cons]
    omega

lemma insertByPriority_length (img : ImageObs) :
    ∀ l : List ImageObs, (insertByPriority img l).length = l.length + 1
  | [] => rfl
  | b :: bs => by
    rw [insertByPriority]
    by_cases h : get_priority b.filename ≤ get_priority img.filename
    · rw [if_pos h]
      simp [insertByPriority_length img bs]
    · rw [if_neg h]
      simp

lemma prioritizeImages_length (pool : List ImageObs) :
    (prioritizeImages pool).length = pool.length := by
  rw [prioritizeImages]
  suffices h : ∀ (l : List ImageObs) (acc : List ImageObs),
      (l.foldl (fun acc img => insertByPriority img acc) acc).length
        = acc.length + l.length by
    simpa using h pool []
  intro l
  induction l with
  | nil => simp
  | cons a t ih =>
    intro acc
    rw [List.foldl_cons, ih, insertByPriority_length]
    simp only [List.length_cons]
    omega

lemma selectedImages_length_le (pool : List ImageObs) (n : Nat) :
    (selectedImages pool n).length ≤ n := by
  rw [selectedImages]
  simp [List.length_take]

lemma selectedImages_length_eq (pool : List ImageObs) (n : Nat)
    (h : n ≤ pool.length) : (selectedImages pool n).length = n := by
  rw [selectedImages]
  simp [List.length_take, prioritizeImages_length]
  omega

lemma findIdx?_eq_none_of {α : Type} (p : α → Bool) :
    ∀ l : List α, (∀ x ∈ l, p x = false) → l.findIdx? p = none
  | [], _ => rfl
  | a :: t, h => by
    have ha : p a = false := h a (List.mem_cons_self a t)
    rw [List.findIdx?_cons, ha]
    simp [findIdx?_eq_none_of p t (fun x hx => h x (List.mem_cons_of_mem a hx))]

/-! ### Lemmas on the b/s/t blocks of v2 and v4 -/

lemma v2BST_pivot (ns : List String) (p : Nat) (h3 : 3 ≤ ns.length)
    (hp : ns.findIdx? (fun v => v.length == 3) = some p) :
    v2BST ns =
      (if 2 ≤ p then ns.getD (p - 2) "" else "",
       if 1 ≤ p then ns.getD (p - 1) "" else "",
       if p + 1 < ns.length then ns.getD (p + 1) "" else "") := by
  unfold v2BST
  rw [if_pos h3, hp]

lemma v2BST_noPivot (ns : List String) (h3 : 3 ≤ ns.length)
    (hp : ns.findIdx? (fun v => v.length == 3) = none) :
    v2BST ns =
      (ns.getD 0 "",
       if 1 < ns.length then ns.getD 1 "" else "",
       if 2 < ns.length then ns.getD 2 "" else "") := by
  unfold v2BST
  rw [if_pos h3, hp]

lemma v2BST_short (ns : List String) (h : ns.length < 3) :
    v2BST ns = ("", "", "") := by
  unfold v2BST
  rw [if_neg (by omega)]

lemma v4BST_skip (lb ls lt : String) (ns : List String) (pc : String)
    (h : ¬(lb = "" ∧ 3 ≤ ns.length)) : v4BST lb ls lt ns pc = (lb, ls, lt) := by
  unfold v4BST
  rw [if_neg h]

lemma v4BST_noPivot (lb ls lt : String) (ns : List String) (pc : String)
    (hb : lb = "") (h3 : 3 ≤ ns.length)
    (hp : ns.findIdx? (fun v => v == pc) = none) :
    v4BST lb ls lt ns pc = (lb, ls, lt) := by
  unfold v4BST
  rw [if_pos ⟨hb, h3⟩, hp]

lemma v4BST_pivot (lb ls lt : String) (ns : List String) (pc : String) (p : Nat)
    (hb : lb = "") (h3 : 3 ≤ ns.length)
    (hp : ns.findIdx? (fun v => v == pc) = some p) :
    v4BST lb ls lt ns pc =
      (if 2 ≤ p then ns.getD (p - 2) "" else lb,
       if 1 ≤ p then ns.getD (p - 1) "" else ls,
       if p + 1 < ns.length then ns.getD (p + 1) "" else lt) := by
  unfold v4BST
  rw [if_pos ⟨hb, h3⟩, hp]

/-! ### Lemmas for the early-termination witness pool -/

lemma imageFieldObs_imgEmpty (f : Field) : imageFieldObs imgEmpty f = [] := by
  cases f <;> rfl

lemma foldl_accumValues_keeps (l : List ImageObs)
    (h : ∀ img ∈ l, ∀ f, imageFieldObs img f = []) :
    ∀ (fv : Field → List String) (f : Field), (l.foldl accumValues fv) f = fv f := by
  induction l with
  | nil => intro fv f; rfl
  | cons a t ih =>
    intro fv f
    rw [List.foldl_cons,
      ih (fun img hm => h img (List.mem_cons_of_mem a hm)) (accumValues fv a) f]
    show fv f ++ imageFieldObs a f = fv f
    rw [h a (List.mem_cons_self a t), List.append_nil]

lemma currentConfidence_zero (fv : Field → List String) (h : ∀ f, fv f = []) :
    currentConfidence fv = 0 := by
  have hm : fieldsList.map (fun f => fieldConfidence (fv f))
      = fieldsList.map (fun _ => (0 : ℚ)) := by
    apply List.map_congr_left
    intro f _
    rw [h f]
    rfl
  rw [currentConfidence, hm]
  norm_num [fieldsList]

lemma processCounts_no_break (th : ℚ) :
    ∀ (imgs : List ImageObs) (fv : Field → List String) (n : Nat),
      (∀ k, k < imgs.length →
        currentConfidence ((imgs.take (k + 1)).foldl accumValues fv) < th) →
      processCounts th imgs fv n = (List.range imgs.length).map (fun i => n + i + 1)
  | [], fv, n, _ => by simp [processCounts]
  | img :: rest, fv, n, H => by
    have h0 := H 0 (by simp [List.length_cons])
    have h0' : currentConfidence (accumValues fv img) < th := by
      simpa using h0
    rw [processCounts, if_neg (not_le.mpr h0')]
    have Hrest : ∀ k, k < rest.length →
        currentConfidence ((rest.take (k + 1)).foldl accumValues (accumValues fv img)) < th := by
      intro k hk
      have := H (k + 1) (by simp [List.length_cons]; omega)
      simpa [List.take_succ_cons] using this
    rw [processCounts_no_break th rest (accumValues fv img) (n + 1) Hrest]
    rw [List.length_cons, List.range_succ_eq_map, List.map_cons, List.map_map]
    refine congrArg₂ List.cons (by omega) ?_
    apply List.map_congr_left
    intro i _
    simp [Function.comp]
    omega

/-! ### The claims -/

/-- C1: for every collection of per-image extraction records, the consensus
computed per field pools all non-empty observations of that field across
every image and every strategy and returns the plurality value (ties broken
by the first-encountered value) with
`confidence = support_count / total_observations × 100`; in particular, for
pooled observations `["100", "100", "200"]` the consensus value is `"100"`
with confidence `200/3` % (printed as 66.7%), `support_count = 2`,
`total = 3`. -/
theorem C1_consensus_plurality :
    (∀ (rs : List ResultEntry) (f : Field), pooledValues rs f ≠ [] →
      IsPluralityConsensus (pooledValues rs f) ((find_consensus rs).fieldRes f)) ∧
    pooledValues demoP3 Field.b_value = ["100", "100", "200"] ∧
    (find_consensus demoP3).fieldRes Field.b_value
      = { value := "100", confidence := (200 : ℚ) / 3, support_count := 2,
          total_observations := 3 } := by
  refine ⟨?_, by decide, ?_⟩
  · intro rs f hne
    obtain ⟨⟨v, c⟩, hmc⟩ := mostCommon_isSome hne
    obtain ⟨hv1, hv2, hv3, hv4⟩ := mostCommon_spec hmc
    have hfr : (find_consensus rs).fieldRes f
        = fieldConsensusOfValues (pooledValues rs f) := rfl
    have key : fieldConsensusOfValues (pooledValues rs f)
        = { value := v,
            confidence := ((c : ℚ) / ((pooledValues rs f).length : ℚ)) * 100,
            support_count := c,
            total_observations := (pooledValues rs f).length } := by
      unfold fieldConsensusOfValues
      rw [hmc]
    rw [IsPluralityConsensus, hfr, key]
    exact ⟨hv1, hv2, rfl, hv3, hv4, rfl⟩
  · have hfr : (find_consensus demoP3).fieldRes Field.b_value
        = fieldConsensusOfValues (pooledValues demoP3 Field.b_value) := rfl
    have hp : pooledValues demoP3 Field.b_value = ["100", "100", "200"] := by decide
    have hmc : mostCommon ["100", "100", "200"] = some ("100", 2) := by decide
    rw [hfr, hp]
    unfold fieldConsensusOfValues
    rw [hmc]
    norm_num

/-- Witness for C1: the hypothesis `pooledValues demoP3 b_value ≠ []`
discharged at the concrete P3 collection. -/
theorem C1_witness :
    pooledValues demoP3 Field.b_value ≠ [] ∧
    IsPluralityConsensus (pooledValues demoP3 Field.b_value)
      ((find_consensus demoP3).fieldRes Field.b_value) :=
  ⟨by decide, C1_consensus_plurality.1 demoP3 Field.b_value (by decide)⟩

/-- C2: for all per-strategy field values, the combined record takes Method
C's (v4's) value when non-empty, else Method B's (v3's), else Method A's
(v2's), else the empty string — per field independently; and
`extract_stat_combined` produces exactly this merge of its three per-strategy
mapped results. -/
theorem C2_combiner_override :
    (∀ (a b c : Record) (f : Field),
      getField (combineMapped a b c) f =
        (if getField c f ≠ "" then getField c f
         else if getField b f ≠ "" then getField b f
         else getField a f)) ∧
    (∀ (env : OcrEnv) (out : CombinedOutput),
      extract_stat_combined env = Except.ok out →
      out.final_result = combineMapped out.v2_result out.v3_result out.v4_result) := by
  constructor
  · intro a b c f
    cases f <;> rfl
  · rintro ⟨r, o⟩ out h
    cases r
    · have he : extract_stat_combined ⟨false, o⟩
          = Except.error (PyErr.keyError "mapped_result") := rfl
      rw [he] at h
      exact Except.noConfusion h
    · cases o with
      | error e =>
        have he : extract_stat_combined ⟨true, Except.error e⟩
            = Except.error PyErr.ocrFail := rfl
        rw [he] at h
        exact Except.noConfusion h
      | ok text =>
        have he : extract_stat_combined ⟨true, Except.ok text⟩
            = Except.ok
              { final_result := combineMapped (v2MappedResult text)
                  (v3MappedResult text.trim) (v4MappedResult text.trim),
                v2_result := v2MappedResult text,
                v3_result := v3MappedResult text.trim,
                v4_result := v4MappedResult text.trim } := rfl
        rw [he] at h
        cases h
        rfl

/-- Witness for C2: the hypothesis of the second conjunct discharged at a
concrete environment. -/
theorem C2_witness :
    extract_stat_combined demoEnv = Except.ok demoOut ∧
    demoOut.final_result
      = combineMapped demoOut.v2_result demoOut.v3_result demoOut.v4_result :=
  ⟨rfl, C2_combiner_override.2 demoEnv demoOut rfl⟩

/-- C8: a field with zero non-empty observations (including an entirely empty
input collection) yields `value = ""`, `confidence = 0`, `support_count = 0`,
`total_observations = 0` in both consensus engines; the computation is total
(no exception) and substitutes no default numeral. -/
theorem C8_zero_observation_policy :
    (∀ (rs : List ResultEntry) (f : Field), pooledValues rs f = [] →
      (find_consensus rs).fieldRes f
        = { value := "", confidence := 0, support_count := 0, total_observations := 0 }) ∧
    (∀ (fv : Field → List String) (f : Field), fv f = [] →
      calcConsensusFields fv f
        = { value := "", confidence := 0, support_count := 0, total_observations := 0 }) ∧
    (∀ f : Field, (find_consensus []).fieldRes f
        = { value := "", confidence := 0, support_count := 0, total_observations := 0 }) ∧
    (∀ (f : Field) (th : ℚ), (analyze_optimized [] 5 th).fieldRes f
        = { value := "", confidence := 0, support_count := 0, total_observations := 0 }) := by
  refine ⟨?_, ?_, ?_, ?_⟩
  · intro rs f h
    show fieldConsensusOfValues (pooledValues rs f) = _
    rw [h]
    rfl
  · intro fv f h
    show fieldConsensusOfValues (fv f) = _
    rw [h]
    rfl
  · intro f
    rfl
  · intro f th
    rfl

/-- Witness for C8: the zero-observation hypotheses discharged at the empty
collection and the empty accumulated-values map. -/
theorem C8_witness :
    pooledValues [] Field.t_value = [] ∧
    (find_consensus []).fieldRes Field.t_value
      = { value := "", confidence := 0, support_count := 0, total_observations := 0 } ∧
    (fun _ : Field => ([] : List String)) Field.s_value = [] ∧
    calcConsensusFields (fun _ => []) Field.s_value
      = { value := "", confidence := 0, support_count := 0, total_observations := 0 } :=
  ⟨rfl, C8_zero_observation_policy.1 [] Field.t_value rfl, rfl,
    C8_zero_observation_policy.2.1 (fun _ => []) Field.s_value rfl⟩

/-- C9: when the image cannot be decoded, every strategy returns the
error-marker dict, and `extract_stat_combined` raises `KeyError` on
`result["mapped_result"]` instead of returning a combined record or
propagating the error marker. -/
theorem C9_unreadable_image_keyerror (ocr : Except Unit String) :
    extract_stat_combined { imageReadable := false, ocrText := ocr }
      = Except.error (PyErr.keyError "mapped_result") := rfl

/-- C3: with `sample_size = 5` and `confidence_threshold = 80`, the optimized
consensus examines at most 5 images: the returned `images_processed` is at
most 5, every value `images_processed` takes during the loop is at most 5,
and when the running confidence stays below 80% throughout, the engine still
returns (totally, no exception) the consensus over exactly the selected
images' observations, with `images_processed` equal to their number — which
is exactly 5 whenever the candidate pool has at least 5 images. -/
theorem C3_early_termination_bound :
    (∀ pool : List ImageObs, (analyze_optimized pool 5 80).images_processed ≤ 5) ∧
    (∀ (pool : List ImageObs) (k : Nat),
      k ∈ processCounts 80 (selectedImages pool 5) (fun _ => []) 0 → k ≤ 5) ∧
    (∀ pool : List ImageObs,
      (∀ k, k < (selectedImages pool 5).length →
        currentConfidence
          (((selectedImages pool 5).take (k + 1)).foldl accumValues (fun _ => [])) < 80) →
      (analyze_optimized pool 5 80).images_processed = (selectedImages pool 5).length ∧
      ∀ f, (analyze_optimized pool 5 80).fieldRes f
        = fieldConsensusOfValues
            (((selectedImages pool 5).foldl accumValues (fun _ => [])) f)) ∧
    (∀ pool : List ImageObs, 5 ≤ pool.length → (selectedImages pool 5).length = 5) := by
  refine ⟨?_, ?_, ?_, ?_⟩
  · intro pool
    have h1 := processImagesLoop_count_le 80 (selectedImages pool 5) (fun _ => []) 0
    have h2 := selectedImages_length_le pool 5
    show (processImagesLoop 80 (selectedImages pool 5) (fun _ => []) 0).2 ≤ 5
    omega
  · intro pool k hk
    have h1 := processCounts_le 80 (selectedImages pool 5) (fun _ => []) 0 k hk
    have h2 := selectedImages_length_le pool 5
    omega
  · intro pool H
    have hnb := processImagesLoop_no_break 80 (selectedImages pool 5) (fun _ => []) 0 H
    constructor
    · show (processImagesLoop 80 (selectedImages pool 5) (fun _ => []) 0).2 = _
      rw [hnb]
      exact Nat.zero_add _
    · intro f
      show fieldConsensusOfValues
          ((processImagesLoop 80 (selectedImages pool 5) (fun _ => []) 0).1 f) = _
      rw [hnb]
  · intro pool h
    exact selectedImages_length_eq pool 5 h

/-- Witness for C3: the membership and never-reaching-80% hypotheses
discharged at a concrete pool of five images with no observations. -/
theorem C3_witness :
    (3 ∈ processCounts 80 (selectedImages poolEmpty 5) (fun _ => []) 0) ∧ 3 ≤ 5 ∧
    5 ≤ poolEmpty.length ∧ (selectedImages poolEmpty 5).length = 5 ∧
    (analyze_optimized poolEmpty 5 80).images_processed
      = (selectedImages poolEmpty 5).length := by
  have hsel : selectedImages poolEmpty 5 = poolEmpty := by decide
  have hobs : ∀ img ∈ selectedImages poolEmpty 5, ∀ f, imageFieldObs img f = [] := by
    rw [hsel]
    intro img hm f
    have himg : img = imgEmpty := by
      simp only [poolEmpty, List.mem_cons, List.not_mem_nil, or_false, or_self] at hm
      exact hm
    rw [himg]
    exact imageFieldObs_imgEmpty f
  have H : ∀ k, k < (selectedImages poolEmpty 5).length →
      currentConfidence
        (((selectedImages poolEmpty 5).take (k + 1)).foldl accumValues (fun _ => [])) < 80 := by
    intro k _
    have hz : ∀ f,
        (((selectedImages poolEmpty 5).take (k + 1)).foldl accumValues (fun _ => [])) f = [] := by
      intro f
      exact foldl_accumValues_keeps _
        (fun img hm => hobs img (List.take_subset (k + 1) _ hm)) _ f
    rw [currentConfidence_zero _ hz]
    norm_num
  have hmem : 3 ∈ processCounts 80 (selectedImages poolEmpty 5) (fun _ => []) 0 := by
    rw [processCounts_no_break 80 _ _ 0 H, hsel]
    decide
  exact ⟨hmem, C3_early_termination_bound.2.1 poolEmpty 3 hmem, by decide,
    C3_early_termination_bound.2.2.2 poolEmpty (by decide),
    (C3_early_termination_bound.2.2.1 poolEmpty H).1⟩

/-- C4 counterexample: on the text `"123 45"` there are only two digit runs,
so the source's `len(all_numbers) >= 3` guard (line 64) leaves all of
b/s/t empty, while the claim's unconditional positional rule (pivot 0, the
first run having exactly three digits) predicts `t_value = "45"`, the run at
pivot+1, which is in range. -/
theorem C4_counterexample :
    digitRuns "123 45" = ["123", "45"] ∧
    (digitRuns "123 45").findIdx? (fun v => v.length == 3) = some 0 ∧
    (v2MappedResult "123 45").t_value = "" ∧
    (v2MappedResult "123 45").t_value ≠ (digitRuns "123 45").getD (0 + 1) "" := by
  refine ⟨by decide, by decide, by decide, by decide⟩

/-- C4 (amended): PROVIDED the text has at least three digit runs, Method A
sets the pivot to the index of the first run with exactly three digits (when
one exists) and takes b/s/t at pivot−2, pivot−1, pivot+1, each defaulting to
the empty string when out of range; the dollar amount is unconditionally
the first comma-grouped numeral of the text.  (The claim omitted the
at-least-three-runs guard; with fewer runs b/s/t stay empty — see the
counterexample and C10.) -/
theorem C4_positional_extraction :
    (∀ (text : String) (p : Nat), 3 ≤ (digitRuns text).length →
      (digitRuns text).findIdx? (fun v => v.length == 3) = some p →
      (v2MappedResult text).b_value
          = (if 2 ≤ p then (digitRuns text).getD (p - 2) "" else "") ∧
      (v2MappedResult text).s_value
          = (if 1 ≤ p then (digitRuns text).getD (p - 1) "" else "") ∧
      (v2MappedResult text).t_value
          = (if p + 1 < (digitRuns text).length then (digitRuns text).getD (p + 1) "" else "")) ∧
    (∀ text : String, (v2MappedResult text).dollar_amount = (commaNums text).headD "") := by
  constructor
  · intro text p h3 hp
    have hb : (v2MappedResult text).b_value = (v2BST (digitRuns text)).1 := rfl
    have hs : (v2MappedResult text).s_value = (v2BST (digitRuns text)).2.1 := rfl
    have ht : (v2MappedResult text).t_value = (v2BST (digitRuns text)).2.2 := rfl
    rw [hb, hs, ht, v2BST_pivot _ p h3 hp]
    exact ⟨rfl, rfl, rfl⟩
  · intro text
    rfl

/-- Witness for C4: the pivot hypotheses discharged on `"1 22 333 44"`
(pivot 2: run `"333"`). -/
theorem C4_witness :
    3 ≤ (digitRuns "1 22 333 44").length ∧
    (digitRuns "1 22 333 44").findIdx? (fun v => v.length == 3) = some 2 ∧
    (v2MappedResult "1 22 333 44").b_value
      = (if 2 ≤ 2 then (digitRuns "1 22 333 44").getD (2 - 2) "" else "") :=
  ⟨by decide, by decide,
    (C4_positional_extraction.1 "1 22 333 44" 2 (by decide) (by decide)).1⟩

/-- C5 counterexample: on `"S7\n1 2 300 4"` the line scan finds
`s_value = "7"`, yet because `b_value` is empty the positional fallback runs
and OVERWRITES `s_value` with `"2"` — the claim says fields already found by
the line scan are left unchanged.  And on `"B5\n1 2 300 4"` the line scan
finds `b_value = "5"` while `s_value` stays empty; the fallback does not run
at all (its guard tests only `b_value`, line 193), so `s_value` remains
empty — the claim says any empty field among b/s/t is filled positionally. -/
theorem C5_counterexample :
    v4LineScan v4SPatterns "S7\n1 2 300 4" = "7" ∧
    (v4MappedResult "S7\n1 2 300 4").s_value = "2" ∧
    (v4MappedResult "S7\n1 2 300 4").s_value ≠ v4LineScan v4SPatterns "S7\n1 2 300 4" ∧
    v4LineScan v4BPatterns "B5\n1 2 300 4" = "5" ∧
    v4LineScan v4SPatterns "B5\n1 2 300 4" = "" ∧
    3 ≤ (digitRuns "B5\n1 2 300 4").length ∧
    (digitRuns "B5\n1 2 300 4").findIdx?
      (fun v => v == v4PeopleCount (digitRuns "B5\n1 2 300 4")) = some 3 ∧
    (v4MappedResult "B5\n1 2 300 4").s_value = "" := by
  refine ⟨by decide, by decide, by decide, by decide, by decide, by decide, by decide, by decide⟩

/-- C5 (amended): in Method C the positional fallback runs exactly when
`b_value` is empty after the line scan and there are at least three digit
runs (even if `s_value`/`t_value` were already found); when the pivot — the
first digit run equal to the computed people count — exists, the fallback
assigns `b_value` (pivot ≥ 2) and OVERWRITES `s_value` (pivot ≥ 1) and
`t_value` (pivot+1 in range), keeping a line-scan value only where the
corresponding guard fails; when no pivot exists, or when `b_value` was found
by the line scan (even with `s_value`/`t_value` empty), or with fewer than
three runs, all three fields keep their line-scan values. -/
theorem C5_v4_positional_fallback :
    (∀ text : String,
      (v4LineScan v4BPatterns text ≠ "" ∨ (digitRuns text).length < 3) →
      (v4MappedResult text).b_value = v4LineScan v4BPatterns text ∧
      (v4MappedResult text).s_value = v4LineScan v4SPatterns text ∧
      (v4MappedResult text).t_value = v4LineScan v4TPatterns text) ∧
    (∀ text : String, v4LineScan v4BPatterns text = "" → 3 ≤ (digitRuns text).length →
      (digitRuns text).findIdx? (fun v => v == v4PeopleCount (digitRuns text)) = none →
      (v4MappedResult text).b_value = v4LineScan v4BPatterns text ∧
      (v4MappedResult text).s_value = v4LineScan v4SPatterns text ∧
      (v4MappedResult text).t_value = v4LineScan v4TPatterns text) ∧
    (∀ (text : String) (p : Nat), v4LineScan v4BPatterns text = "" →
      3 ≤ (digitRuns text).length →
      (digitRuns text).findIdx? (fun v => v == v4PeopleCount (digitRuns text)) = some p →
      (v4MappedResult text).b_value
          = (if 2 ≤ p then (digitRuns text).getD (p - 2) ""
             else v4LineScan v4BPatterns text) ∧
      (v4MappedResult text).s_value
          = (if 1 ≤ p then (digitRuns text).getD (p - 1) ""
             else v4LineScan v4SPatterns text) ∧
      (v4MappedResult text).t_value
          = (if p + 1 < (digitRuns text).length then (digitRuns text).getD (p + 1) ""
             else v4LineScan v4TPatterns text)) := by
  refine ⟨?_, ?_, ?_⟩
  · intro text h
    have hskip : ¬(v4LineScan v4BPatterns text = "" ∧ 3 ≤ (digitRuns text).length) := by
      rcases h with h | h
      · exact fun hc => h hc.1
      · exact fun hc => absurd hc.2 (by omega)
    have hb : (v4MappedResult text).b_value
        = (v4BST (v4LineScan v4BPatterns text) (v4LineScan v4SPatterns text)
            (v4LineScan v4TPatterns text) (digitRuns text)
            (v4PeopleCount (digitRuns text))).1 := rfl
    have hs : (v4MappedResult text).s_value
        = (v4BST (v4LineScan v4BPatterns text) (v4LineScan v4SPatterns text)
            (v4LineScan v4TPatterns text) (digitRuns text)
            (v4PeopleCount (digitRuns text))).2.1 := rfl
    have ht : (v4MappedResult text).t_value
        = (v4BST (v4LineScan v4BPatterns text) (v4LineScan v4SPatterns text)
            (v4LineScan v4TPatterns text) (digitRuns text)
            (v4PeopleCount (digitRuns text))).2.2 := rfl
    rw [hb, hs, ht, v4BST_skip _ _ _ _ _ hskip]
    exact ⟨rfl, rfl, rfl⟩
  · intro text hlb h3 hp
    have hb : (v4MappedResult text).b_value
        = (v4BST (v4LineScan v4BPatterns text) (v4LineScan v4SPatterns text)
            (v4LineScan v4TPatterns text) (digitRuns text)
            (v4PeopleCount (digitRuns text))).1 := rfl
    have hs : (v4MappedResult text).s_value
        = (v4BST (v4LineScan v4BPatterns text) (v4LineScan v4SPatterns text)
            (v4LineScan v4TPatterns text) (digitRuns text)
            (v4PeopleCount (digitRuns text))).2.1 := rfl
    have ht : (v4MappedResult text).t_value
        = (v4BST (v4LineScan v4BPatterns text) (v4LineScan v4SPatterns text)
            (v4LineScan v4TPatterns text) (digitRuns text)
            (v4PeopleCount (digitRuns text))).2.2 := rfl
    rw [hb, hs, ht, v4BST_noPivot _ _ _ _ _ hlb h3 hp]
    exact ⟨rfl, rfl, rfl⟩
  · intro text p hlb h3 hp
    have hb : (v4MappedResult text).b_value
        = (v4BST (v4LineScan v4BPatterns text) (v4LineScan v4SPatterns text)
            (v4LineScan v4TPatterns text) (digitRuns text)
            (v4PeopleCount (digitRuns text))).1 := rfl
    have hs : (v4MappedResult text).s_value
        = (v4BST (v4LineScan v4BPatterns text) (v4LineScan v4SPatterns text)
            (v4LineScan v4TPatterns text) (digitRuns text)
            (v4PeopleCount (digitRuns text))).2.1 := rfl
    have ht : (v4MappedResult text).t_value
        = (v4BST (v4LineScan v4BPatterns text) (v4LineScan v4SPatterns text)
            (v4LineScan v4TPatterns text) (digitRuns text)
            (v4PeopleCount (digitRuns text))).2.2 := rfl
    rw [hb, hs, ht, v4BST_pivot _ _ _ _ _ p hlb h3 hp]
    exact ⟨rfl, rfl, rfl⟩

/-- Witness for C5: the fallback hypotheses discharged on `"S7\n1 2 300 4"`
(pivot 3, the run `"300"`), where the overwritten `s_value` becomes the run
at pivot−1. -/
theorem C5_witness :
    v4LineScan v4BPatterns "S7\n1 2 300 4" = "" ∧
    3 ≤ (digitRuns "S7\n1 2 300 4").length ∧
    (digitRuns "S7\n1 2 300 4").findIdx?
      (fun v => v == v4PeopleCount (digitRuns "S7\n1 2 300 4")) = some 3 ∧
    (v4MappedResult "S7\n1 2 300 4").s_value
      = (if 1 ≤ 3 then (digitRuns "S7\n1 2 300 4").getD (3 - 1) ""
         else v4LineScan v4SPatterns "S7\n1 2 300 4") :=
  ⟨by decide, by decide, by decide,
    (C5_v4_positional_fallback.2.2 "S7\n1 2 300 4" 3 (by decide) (by decide) (by decide)).2.1⟩

/-- C6 counterexample: at a readable image whose OCR recognition call raises,
each strategy call itself raises (`pytesseract` is called with no exception
handler around it, lines 40, 99, 144), so the exception escapes the
single-image extraction call and no five-field record is returned —
contradicting the claim. -/
theorem C6_counterexample :
    extract_lisa_data_v2 { imageReadable := true, ocrText := Except.error () }
        = Except.error PyErr.ocrFail ∧
    extract_game_stat_v3 { imageReadable := true, ocrText := Except.error () }
        = Except.error PyErr.ocrFail ∧
    extract_stat_v4 { imageReadable := true, ocrText := Except.error () }
        = Except.error PyErr.ocrFail ∧
    (∀ out : StratOutput,
      extract_lisa_data_v2 { imageReadable := true, ocrText := Except.error () }
        ≠ Except.ok out) := by
  refine ⟨rfl, rfl, rfl, ?_⟩
  intro out h
  have h2 : (Except.error PyErr.ocrFail : Except PyErr StratOutput) = Except.ok out := h
  exact Except.noConfusion h2

/-- C6 (amended): exceptions from the OCR recognition call are NOT caught
inside the strategies: on a readable image whose OCR call raises, each of
v2/v3/v4 propagates the exception out of the single-image extraction call.
Only a failed image decode is handled (by returning the error-marker dict),
and when decode and OCR both succeed each strategy returns the
five-string-field record without raising. -/
theorem C6_ocr_failure_behaviour :
    ∀ env : OcrEnv, env.imageReadable = true →
      (env.ocrText = Except.error () →
        extract_lisa_data_v2 env = Except.error PyErr.ocrFail ∧
        extract_game_stat_v3 env = Except.error PyErr.ocrFail ∧
        extract_stat_v4 env = Except.error PyErr.ocrFail) ∧
      (∀ text, env.ocrText = Except.ok text →
        extract_lisa_data_v2 env
            = Except.ok (StratOutput.result text.trim (v2MappedResult text)) ∧
        extract_game_stat_v3 env
            = Except.ok (StratOutput.result text.trim (v3MappedResult text.trim)) ∧
        extract_stat_v4 env
            = Except.ok (StratOutput.result text.trim (v4MappedResult text.trim))) := by
  rintro ⟨r, o⟩ hr
  obtain rfl : r = true := hr
  refine ⟨?_, ?_⟩
  · intro ho
    obtain rfl : o = Except.error () := ho
    exact ⟨rfl, rfl, rfl⟩
  · intro text ho
    obtain rfl : o = Except.ok text := ho
    exact ⟨rfl, rfl, rfl⟩

/-- Witness for C6: the readable/raising and readable/succeeding hypotheses
discharged at concrete environments. -/
theorem C6_witness :
    extract_lisa_data_v2 { imageReadable := true, ocrText := Except.error () }
        = Except.error PyErr.ocrFail ∧
    extract_stat_v4 { imageReadable := true, ocrText := Except.ok "B12 77" }
        = Except.ok (StratOutput.result ("B12 77".trim) (v4MappedResult ("B12 77".trim))) :=
  ⟨((C6_ocr_failure_behaviour ⟨true, Except.error ()⟩ rfl).1 rfl).1,
    ((C6_ocr_failure_behaviour ⟨true, Except.ok "B12 77"⟩ rfl).2 "B12 77" rfl).2.2⟩

/-- C7 counterexample: on a pool whose one image draws all its observations
from strategy v2, the v2 score ratio (1) strictly exceeds v3's (0), so the
ratio-maximizing strategy is v2 — yet the optimized engine reports the
hard-coded `best_method = "v3"` (line 709), so the claim's best-method rule
does not hold for the optimized engine. -/
theorem C7_counterexample :
    (analyze_optimized [imgOnlyV2] 5 80).best_method = "v3" ∧
    methodRatio obsOnlyV2 Method.v3 < methodRatio obsOnlyV2 Method.v2 ∧
    (bestMethod obsOnlyV2).name = "v2" := by
  have hs2 : methodScore obsOnlyV2 Method.v2 = 5 := by decide
  have ht2 : methodTouched obsOnlyV2 Method.v2 = 5 := by decide
  have ht3 : methodTouched obsOnlyV2 Method.v3 = 0 := by decide
  have ht4 : methodTouched obsOnlyV2 Method.v4 = 0 := by decide
  have r2 : methodRatio obsOnlyV2 Method.v2 = 1 := by
    unfold methodRatio
    rw [hs2, ht2]
    norm_num
  have r3 : methodRatio obsOnlyV2 Method.v3 = 0 := by
    unfold methodRatio
    rw [ht3]
    norm_num
  have r4 : methodRatio obsOnlyV2 Method.v4 = 0 := by
    unfold methodRatio
    rw [ht4]
    norm_num
  refine ⟨rfl, ?_, ?_⟩
  · rw [r2, r3]
    norm_num
  · show (Method.name
        (if methodRatio obsOnlyV2
            (if methodRatio obsOnlyV2 Method.v2 < methodRatio obsOnlyV2 Method.v3
              then Method.v3 else Method.v2) < methodRatio obsOnlyV2 Method.v4
          then Method.v4
          else if methodRatio obsOnlyV2 Method.v2 < methodRatio obsOnlyV2 Method.v3
            then Method.v3 else Method.v2)) = "v2"
    rw [r2, r3, r4]
    rw [if_neg (by norm_num : ¬((1 : ℚ) < (0 : ℚ)))]
    rw [r2]
    rw [if_neg (by norm_num : ¬((1 : ℚ) < (0 : ℚ)))]
    rfl

/-- C7 (amended): in the FULL engine, `best_method` attains the maximal
value of (non-empty observations contributed)/(fields contributed to), ties
resolved toward the earlier of v2, v3, v4, and the per-field consensus
values are computed from the pooled observations alone, independently of the
best-method selection; the OPTIMIZED engine instead reports the hard-coded
constant `"v3"` as `best_method` regardless of the observations. -/
theorem C7_best_method_advisory :
    (∀ (rs : List ResultEntry) (m : Method),
      methodRatio rs m ≤ methodRatio rs (bestMethod rs)) ∧
    (∀ (rs : List ResultEntry) (f : Field),
      (find_consensus rs).fieldRes f = fieldConsensusOfValues (pooledValues rs f)) ∧
    (∀ (pool : List ImageObs) (n : Nat) (th : ℚ),
      (analyze_optimized pool n th).best_method = "v3") := by
  refine ⟨?_, ?_, ?_⟩
  · intro rs m
    cases m <;> simp only [bestMethod] <;> split_ifs <;> linarith
  · intro rs f
    rfl
  · intro pool n th
    rfl

/-- C10: when the text has at least three digit runs but none of exactly
three digits (`StopIteration`, lines 70-73), Method A assigns the first,
second and third runs to b/s/t; and with fewer than three digit runs all
three stay empty regardless of the runs' lengths. -/
theorem C10_v2_fallback_and_guard :
    (∀ text : String, 3 ≤ (digitRuns text).length →
      (∀ v ∈ digitRuns text, v.length ≠ 3) →
      (v2MappedResult text).b_value = (digitRuns text).getD 0 "" ∧
      (v2MappedResult text).s_value = (digitRuns text).getD 1 "" ∧
      (v2MappedResult text).t_value = (digitRuns text).getD 2 "") ∧
    (∀ text : String, (digitRuns text).length < 3 →
      (v2MappedResult text).b_value = "" ∧
      (v2MappedResult text).s_value = "" ∧
      (v2MappedResult text).t_value = "") := by
  constructor
  · intro text h3 hnone
    have hfi : (digitRuns text).findIdx? (fun v => v.length == 3) = none := by
      apply findIdx?_eq_none_of
      intro x hx
      simpa using hnone x hx
    have hb : (v2MappedResult text).b_value = (v2BST (digitRuns text)).1 := rfl
    have hs : (v2MappedResult text).s_value = (v2BST (digitRuns text)).2.1 := rfl
    have ht : (v2MappedResult text).t_value = (v2BST (digitRuns text)).2.2 := rfl
    rw [hb, hs, ht, v2BST_noPivot _ h3 hfi]
    refine ⟨rfl, ?_, ?_⟩
    · show (if 1 < (digitRuns text).length then (digitRuns text).getD 1 "" else "") = _
      rw [if_pos (by omega)]
    · show (if 2 < (digitRuns text).length then (digitRuns text).getD 2 "" else "") = _
      rw [if_pos (by omega)]
  · intro text h
    have hb : (v2MappedResult text).b_value = (v2BST (digitRuns text)).1 := rfl
    have hs : (v2MappedResult text).s_value = (v2BST (digitRuns text)).2.1 := rfl
    have ht : (v2MappedResult text).t_value = (v2BST (digitRuns text)).2.2 := rfl
    rw [hb, hs, ht, v2BST_short _ h]
    exact ⟨rfl, rfl, rfl⟩

/-- Witness for C10: both branches discharged at concrete texts — four digit
runs none of length three, and two digit runs. -/
theorem C10_witness :
    3 ≤ (digitRuns "12 34 5678 9").length ∧
    (∀ v ∈ digitRuns "12 34 5678 9", v.length ≠ 3) ∧
    (v2MappedResult "12 34 5678 9").b_value = (digitRuns "12 34 5678 9").getD 0 "" ∧
    (digitRuns "12 34").length < 3 ∧
    (v2MappedResult "12 34").s_value = "" :=
  ⟨by decide, by decide,
    (C10_v2_fallback_and_guard.1 "12 34 5678 9" (by decide) (by decide)).1,
    by decide,
    (C10_v2_fallback_and_guard.2 "12 34" (by decide)).2.1⟩

end TapTap
